import Mathlib

/-!
Shallow embedding of the Atomo text editor (src/atomo.py), a nano-style
terminal editor: an in-memory line buffer, a cursor with clamping, scroll
offsets, wrap-around substring search, single-line cut/paste, file
save/load, and the key-dispatch loop.  Lines are modelled as `List Char`
(Python `str` without the terminal surface), the editor object as an
explicit state record, and the `run` loop as a pure dispatch function over
decoded key events; external inputs (prompt answers, write success) are
carried as payloads on the event.
-/

namespace Atomo

/-- A Python string: a list of characters. -/
abbrev Str := List Char

/-- The single-quote character, used in the status messages of the source. -/
def quoteChar : Char := Char.ofNat 39

/-- Auxiliary scan for Python `str.find`: first index `≥ i` (counting from
the original start) where `q` occurs in the remaining suffix `s`. -/
def strFindAux (q : Str) : Str → Nat → Option Nat
  | [], i => if q = [] then some i else none
  | c :: rest, i =>
    if (c :: rest).take q.length = q then some i
    else strFindAux q rest (i + 1)

/-- Python `s.find(q)`: index of the leftmost occurrence of `q` in `s`,
`none` when absent (Python returns `-1`). -/
def strFind (s q : Str) : Option Nat :=
  strFindAux q s 0

/-- `q` occurs in `s` starting at index `i`. -/
def matchesAt (s q : Str) (i : Nat) : Prop :=
  (s.drop i).take q.length = q

instance (s q : Str) (i : Nat) : Decidable (matchesAt s q i) := by
  unfold matchesAt
  exact inferInstance

/-- One Python line-break character (the set recognised by `str.splitlines`). -/
def isLineBreak (c : Char) : Bool :=
  c.toNat = 10 || c.toNat = 13 || c.toNat = 11 || c.toNat = 12 ||
  c.toNat = 28 || c.toNat = 29 || c.toNat = 30 || c.toNat = 133 ||
  c.toNat = 8232 || c.toNat = 8233

/-- Python `str.splitlines`: split on line-break characters, treating CR-LF
as a single break; a trailing break does not produce a final empty line. -/
def splitlines : Str → List Str
  | [] => []
  | '\r' :: '\n' :: rest2 => [] :: splitlines rest2
  | c :: rest =>
    if isLineBreak c then
      [] :: splitlines rest
    else
      match splitlines rest with
      | [] => [[c]]
      | m :: ms => (c :: m) :: ms

/-- Python `'\n'.join(lines)`. -/
def joinNL : List Str → Str
  | [] => []
  | [l] => l
  | l :: l2 :: ls => l ++ '\n' :: joinNL (l2 :: ls)

/-- Python `list.insert(i, x)` (clamps the index like Python does). -/
def pyInsert (i : Nat) (x : Str) (l : List Str) : List Str :=
  l.take i ++ x :: l.drop i

/-- Python truthiness of an `Optional[str]`: `None` and `""` are falsy. -/
def truthyOpt : Option Str → Bool
  | none => false
  | some s => !s.isEmpty

/-- The classification of a status message (source uses the strings
`"info"`, `"error"`, `"success"`). -/
def infoTy : Str := "info".toList

/-- The `"error"` message classification string. -/
def errorTy : Str := "error".toList

/-- The `"success"` message classification string. -/
def successTy : Str := "success".toList

/-- Status message of a plain (non-wrapped) search hit. -/
def msgFound (q : Str) : Str :=
  "Found ".toList ++ quoteChar :: q ++ [quoteChar]

/-- Status message of a wrapped search hit. -/
def msgFoundWrapped (q : Str) : Str :=
  "Found ".toList ++ quoteChar :: q ++ quoteChar :: " (wrapped)".toList

/-- Status message of a failed search. -/
def msgNotFound (q : Str) : Str :=
  quoteChar :: q ++ quoteChar :: " not found".toList

/-- Status message after a successful save. -/
def msgWrote (n : Nat) (f : Str) : Str :=
  "Wrote ".toList ++ (toString n).toList ++ " lines to ".toList ++ f

/-- Status message after a failed save (the exception text is a parameter). -/
def msgErrWriting (f e : Str) : Str :=
  "Error writing ".toList ++ f ++ ": ".toList ++ e

/-- Status message after loading an existing file. -/
def msgRead (n : Nat) (f : Str) : Str :=
  "Read ".toList ++ (toString n).toList ++ " lines from ".toList ++ f

/-- Status message after opening a path that does not exist. -/
def msgNewFile (f : Str) : Str :=
  "New File: ".toList ++ f

/-- Status message after a failed read. -/
def msgErrReading (f e : Str) : Str :=
  "Error reading ".toList ++ f ++ ": ".toList ++ e

/-- Status message of the cut command. -/
def msgCutLine : Str := "Cut line".toList

/-- Status message of the paste command. -/
def msgPastedLine : Str := "Pasted line".toList

/-- The fields of the `AtomoEditor` object that the core logic touches
(the curses screen handle is external). -/
structure EditorState where
  filename : Option Str
  lines : List Str
  cursor_y : Nat
  cursor_x : Nat
  offset_y : Nat
  offset_x : Nat
  modified : Bool
  message : Str
  message_type : Str
deriving DecidableEq, Repr

/-- `AtomoEditor.adjust_scroll`, with the usable screen size
`(height, width)` (what `get_dimensions` returns) passed explicitly. -/
def adjust_scroll (height width : Nat) (s : EditorState) : EditorState :=
  let oy :=
    if s.cursor_y < s.offset_y then s.cursor_y
    else if s.cursor_y ≥ s.offset_y + height then s.cursor_y - height + 1
    else s.offset_y
  let ox :=
    if s.cursor_x < s.offset_x then s.cursor_x
    else if s.cursor_x ≥ s.offset_x + width then s.cursor_x - width + 1
    else s.offset_x
  { s with offset_y := oy, offset_x := ox }

/-- `AtomoEditor.move_cursor(dy, dx)`: clamp the row into
`[0, lineCount-1]`, then the column into `[0, length(line[row])]`;
clears the status message first. -/
def move_cursor (height width : Nat) (dy dx : Int) (s : EditorState) : EditorState :=
  let s1 := { s with message := [] }
  let newY : Nat := (max 0 (min ((s1.lines.length : Int) - 1) ((s1.cursor_y : Int) + dy))).toNat
  let currentLine := s1.lines.getD newY []
  let newX : Nat := (max 0 (min ((currentLine.length : Int)) ((s1.cursor_x : Int) + dx))).toNat
  adjust_scroll height width { s1 with cursor_y := newY, cursor_x := newX }

/-- `AtomoEditor.insert_char(char)` of `atomo.py`: splice the text into the
current line at the cursor column; the source advances the column by `1`
(even when `char` is the 4-space tab text). -/
def insert_char (height width : Nat) (ch : Str) (s : EditorState) : EditorState :=
  let line := s.lines.getD s.cursor_y []
  adjust_scroll height width
    { s with
      lines := s.lines.set s.cursor_y (line.take s.cursor_x ++ ch ++ line.drop s.cursor_x)
      cursor_x := s.cursor_x + 1
      modified := true
      message := [] }

/-- `AtomoEditor.insert_char(char)` of `atomo_commentato.py`: identical
splice, but the column advances by `len(char)` (and the message is not
cleared there). -/
def insert_char_commentato (height width : Nat) (ch : Str) (s : EditorState) : EditorState :=
  let line := s.lines.getD s.cursor_y []
  adjust_scroll height width
    { s with
      lines := s.lines.set s.cursor_y (line.take s.cursor_x ++ ch ++ line.drop s.cursor_x)
      cursor_x := s.cursor_x + ch.length
      modified := true }

/-- `AtomoEditor.delete_char` (the Delete key): remove the character under
the cursor, or merge with the next line when at end of line. -/
def delete_char (s : EditorState) : EditorState :=
  let line := s.lines.getD s.cursor_y []
  if s.cursor_x < line.length then
    { s with
      lines := s.lines.set s.cursor_y (line.take s.cursor_x ++ line.drop (s.cursor_x + 1))
      modified := true
      message := [] }
  else if s.cursor_y < s.lines.length - 1 then
    { s with
      lines := (s.lines.set s.cursor_y (line ++ s.lines.getD (s.cursor_y + 1) [])).eraseIdx (s.cursor_y + 1)
      modified := true
      message := [] }
  else
    { s with message := [] }

/-- `AtomoEditor.backspace`: remove the character before the cursor, or
merge the current line onto the previous one when at column 0. -/
def backspace (height width : Nat) (s : EditorState) : EditorState :=
  if s.cursor_x > 0 then
    let line := s.lines.getD s.cursor_y []
    adjust_scroll height width
      { s with
        lines := s.lines.set s.cursor_y (line.take (s.cursor_x - 1) ++ line.drop s.cursor_x)
        cursor_x := s.cursor_x - 1
        modified := true
        message := [] }
  else if s.cursor_y > 0 then
    let prevLen := (s.lines.getD (s.cursor_y - 1) []).length
    adjust_scroll height width
      { s with
        lines := (s.lines.set (s.cursor_y - 1)
            (s.lines.getD (s.cursor_y - 1) [] ++ s.lines.getD s.cursor_y [])).eraseIdx s.cursor_y
        cursor_y := s.cursor_y - 1
        cursor_x := prevLen
        modified := true
        message := [] }
  else
    adjust_scroll height width { s with message := [] }

/-- `AtomoEditor.insert_newline` (the Enter key): split the current line at
the cursor; the cursor moves to the start of the new line. -/
def insert_newline (height width : Nat) (s : EditorState) : EditorState :=
  let line := s.lines.getD s.cursor_y []
  adjust_scroll height width
    { s with
      lines := pyInsert (s.cursor_y + 1) (line.drop s.cursor_x)
        (s.lines.set s.cursor_y (line.take s.cursor_x))
      cursor_y := s.cursor_y + 1
      cursor_x := 0
      modified := true
      message := [] }

/-- Fuel-driven scan of `for y in range(a, b)` in `AtomoEditor.search`:
first row (with its leftmost match column) containing the query. -/
def findInRangeGo (lines : List Str) (q : Str) : Nat → Nat → Option (Nat × Nat)
  | 0, _ => none
  | fuel + 1, a =>
    match strFind (lines.getD a []) q with
    | some p => some (a, p)
    | none => findInRangeGo lines q fuel (a + 1)

/-- First row in `[a, b)` (with leftmost match column) containing `q`. -/
def findInRange (lines : List Str) (q : Str) (a b : Nat) : Option (Nat × Nat) :=
  findInRangeGo lines q (b - a) a

/-- `AtomoEditor.search(query)`: the origin row strictly after the cursor
column, then the rows below, then a wrap pass over the rows above the
origin row (the origin row itself is not re-searched). -/
def search (height width : Nat) (q : Str) (s : EditorState) : EditorState :=
  if q = [] then s
  else
    let start_y := s.cursor_y
    let start_x := s.cursor_x + 1
    match strFind ((s.lines.getD start_y []).drop start_x) q with
    | some pos =>
      adjust_scroll height width
        { s with cursor_x := start_x + pos, message := msgFound q, message_type := successTy }
    | none =>
      match findInRange s.lines q (start_y + 1) s.lines.length with
      | some (y, p) =>
        adjust_scroll height width
          { s with cursor_y := y, cursor_x := p, message := msgFound q, message_type := successTy }
      | none =>
        match findInRange s.lines q 0 start_y with
        | some (y, p) =>
          adjust_scroll height width
            { s with cursor_y := y, cursor_x := p
                     message := msgFoundWrapped q, message_type := successTy }
        | none =>
          { s with message := msgNotFound q, message_type := errorTy }

/-- The byte content `AtomoEditor.save_file` writes: the lines joined with
newlines, plus one trailing newline when the last line is truthy. -/
def saveContent (lines : List Str) : Str :=
  joinNL lines ++
    (match lines.getLast? with
     | some last => if last = [] then [] else ['\n']
     | none => [])

/-- `AtomoEditor.save_file(filename)`.  `writeRes = none` models a write
that succeeds, `some e` a write raising an exception with text `e`.
Returns the Python boolean result together with the new state. -/
def save_file (writeRes : Option Str) (fname : Option Str) (s : EditorState) :
    Bool × EditorState :=
  let s1 := if truthyOpt fname then { s with filename := fname } else s
  if !truthyOpt s1.filename then (false, s1)
  else
    match s1.filename with
    | none => (false, s1)
    | some f =>
      match writeRes with
      | none =>
        (true, { s1 with
          modified := false
          message := msgWrote s1.lines.length f
          message_type := successTy })
      | some e =>
        (false, { s1 with message := msgErrWriting f e, message_type := errorTy })

/-- The buffer `AtomoEditor.load_file` builds from the raw file content. -/
def loadLines (content : Str) : List Str :=
  let ls := splitlines content
  if ls = [] then [[]] else ls

/-- `AtomoEditor.prompt_save_filename`: the stripped user input when
non-empty, else the current filename. -/
def prompt_save_filename (s : EditorState) (input : Str) : Option Str :=
  if input = [] then s.filename else some input

/-- The decisive answer to the exit confirmation prompt (other keys are
ignored by the source's read loop). -/
inductive ExitAnswer where
  | yes
  | no
  | cancel
deriving DecidableEq, Repr

/-- `AtomoEditor.confirm_exit`: `true` means the editor terminates.
`input` is the (stripped) filename prompt answer used on `yes`,
`writeRes` the outcome of the write attempt. -/
def confirm_exit (writeRes : Option Str) (ans : ExitAnswer) (input : Str)
    (s : EditorState) : Bool × EditorState :=
  if s.modified = false then (true, s)
  else
    match ans with
    | .yes =>
      let fname := prompt_save_filename s input
      if truthyOpt fname then
        let r := save_file writeRes fname s
        if r.1 then (true, r.2) else (false, r.2)
      else (false, s)
    | .no => (true, s)
    | .cancel => (false, s)

/-- A decoded key event of the `run` loop; modal prompt answers and the
filesystem outcome are payloads. -/
inductive Key where
  | ctrlX (ans : ExitAnswer) (input : Str) (writeRes : Option Str)
  | ctrlO (input : Str) (writeRes : Option Str)
  | ctrlW (input : Option Str)
  | ctrlK
  | ctrlU
  | ctrlG
  | ctrlA
  | ctrlE
  | up
  | down
  | left
  | right
  | home
  | endKey
  | pageUp
  | pageDown
  | enter
  | backspaceKey
  | deleteKey
  | tab
  | printable (c : Char)
deriving DecidableEq, Repr

/-- One iteration of `AtomoEditor.run` (the state paired with the loop's
local `cut_buffer`).  For Ctrl+X the state is the one the loop holds
whether or not it then breaks. -/
def dispatch (height width : Nat) (k : Key) (s : EditorState) (cut_buffer : Str) :
    EditorState × Str :=
  match k with
  | .ctrlX ans input writeRes => ((confirm_exit writeRes ans input s).2, cut_buffer)
  | .ctrlO input writeRes =>
    let fname := prompt_save_filename s input
    if truthyOpt fname then ((save_file writeRes fname s).2, cut_buffer)
    else (s, cut_buffer)
  | .ctrlW input =>
    match input with
    | some q => if q = [] then (s, cut_buffer) else (search height width q s, cut_buffer)
    | none => (s, cut_buffer)
  | .ctrlK =>
    if s.lines.isEmpty then (s, cut_buffer)
    else
      let cb := s.lines.getD s.cursor_y []
      let ls0 := s.lines.eraseIdx s.cursor_y
      let ls := if ls0.isEmpty then [[]] else ls0
      let cy := if s.cursor_y ≥ ls.length then ls.length - 1 else s.cursor_y
      ({ s with lines := ls, cursor_y := cy, cursor_x := 0, modified := true
                message := msgCutLine, message_type := infoTy }, cb)
  | .ctrlU =>
    if cut_buffer.isEmpty then (s, cut_buffer)
    else
      ({ s with lines := pyInsert s.cursor_y cut_buffer s.lines, modified := true
                message := msgPastedLine, message_type := infoTy }, cut_buffer)
  | .ctrlG => (s, cut_buffer)
  | .ctrlA => (adjust_scroll height width { s with cursor_x := 0 }, cut_buffer)
  | .ctrlE =>
    (adjust_scroll height width
      { s with cursor_x := (s.lines.getD s.cursor_y []).length }, cut_buffer)
  | .up => (move_cursor height width (-1) 0 s, cut_buffer)
  | .down => (move_cursor height width 1 0 s, cut_buffer)
  | .left =>
    if s.cursor_x > 0 then (move_cursor height width 0 (-1) s, cut_buffer)
    else if s.cursor_y > 0 then
      (adjust_scroll height width
        { s with cursor_y := s.cursor_y - 1
                 cursor_x := (s.lines.getD (s.cursor_y - 1) []).length }, cut_buffer)
    else (s, cut_buffer)
  | .right =>
    if s.cursor_x < (s.lines.getD s.cursor_y []).length then
      (move_cursor height width 0 1 s, cut_buffer)
    else if s.cursor_y < s.lines.length - 1 then
      (adjust_scroll height width
        { s with cursor_y := s.cursor_y + 1, cursor_x := 0 }, cut_buffer)
    else (s, cut_buffer)
  | .home => (adjust_scroll height width { s with cursor_x := 0 }, cut_buffer)
  | .endKey =>
    (adjust_scroll height width
      { s with cursor_x := (s.lines.getD s.cursor_y []).length }, cut_buffer)
  | .pageUp => (move_cursor height width (-(height : Int)) 0 s, cut_buffer)
  | .pageDown => (move_cursor height width (height : Int) 0 s, cut_buffer)
  | .enter => (insert_newline height width s, cut_buffer)
  | .backspaceKey => (backspace height width s, cut_buffer)
  | .deleteKey => (delete_char s, cut_buffer)
  | .tab => (insert_char height width "    ".toList s, cut_buffer)
  | .printable c =>
    if 32 ≤ c.toNat ∧ c.toNat ≤ 126 then (insert_char height width [c] s, cut_buffer)
    else (s, cut_buffer)

/-- How the editor starts (`AtomoEditor.__init__`, optionally through
`load_file`): no file argument, a path that does not exist, a path read
successfully with the given content, or a read that raises. -/
inductive StartArg where
  | noFile
  | newFile (name : Str)
  | readFile (name : Str) (content : Str)
  | readErr (name : Str) (e : Str)
deriving DecidableEq, Repr

/-- The editor state right after `__init__`. -/
def initState : StartArg → EditorState
  | .noFile => ⟨none, [[]], 0, 0, 0, 0, false, [], infoTy⟩
  | .newFile name => ⟨some name, [[]], 0, 0, 0, 0, false, msgNewFile name, infoTy⟩
  | .readFile name content =>
    ⟨some name, loadLines content, 0, 0, 0, 0, false,
      msgRead (loadLines content).length name, successTy⟩
  | .readErr name e => ⟨some name, [[]], 0, 0, 0, 0, false, msgErrReading name e, errorTy⟩

/-- A run-loop state reachable from some start through dispatched events. -/
inductive Reachable (height width : Nat) : EditorState → Str → Prop where
  | init (arg : StartArg) : Reachable height width (initState arg) []
  | step {s cb} (h : Reachable height width s cb) (k : Key) :
      Reachable height width (dispatch height width k s cb).1 (dispatch height width k s cb).2

/-- Dispatch a whole list of key events in order. -/
def dispatchList (height width : Nat) (ks : List Key) (p : EditorState × Str) :
    EditorState × Str :=
  ks.foldl (fun p k => dispatch height width k p.1 p.2) p

/-- The full spec invariant: non-empty buffer, row within the buffer,
column within the addressed line. -/
def Inv (s : EditorState) : Prop :=
  s.lines ≠ [] ∧ s.cursor_y < s.lines.length ∧
    s.cursor_x ≤ (s.lines.getD s.cursor_y []).length

/-- The part of the invariant the code actually maintains everywhere:
non-empty buffer and in-range row. -/
def WeakInv (s : EditorState) : Prop :=
  s.lines ≠ [] ∧ s.cursor_y < s.lines.length

instance (s : EditorState) : Decidable (Inv s) := by
  unfold Inv
  exact inferInstance

instance (s : EditorState) : Decidable (WeakInv s) := by
  unfold WeakInv
  exact inferInstance

/-! ### Generic list lemmas -/

theorem getD_set_self {α : Type} (l : List α) (n : Nat) (v d : α) (h : n < l.length) :
    (l.set n v).getD n d = v := by
  induction l generalizing n with
  | nil => simp at h
  | cons a t ih =>
    cases n with
    | zero => rfl
    | succ m =>
      simp only [List.set, List.getD, List.get?, List.length_cons] at *
      exact ih m (by omega)

theorem length_eraseIdx_lt {α : Type} (l : List α) (n : Nat) (h : n < l.length) :
    (l.eraseIdx n).length = l.length - 1 := by
  induction l generalizing n with
  | nil => simp at h
  | cons a t ih =>
    cases n with
    | zero => simp [List.eraseIdx]
    | succ m =>
      simp only [List.eraseIdx, List.length_cons] at *
      rw [ih m (by omega)]
      omega

theorem getD_eraseIdx_lt {α : Type} (l : List α) (n m : Nat) (d : α) (h : m < n) :
    (l.eraseIdx n).getD m d = l.getD m d := by
  induction l generalizing n m with
  | nil => simp [List.eraseIdx]
  | cons a t ih =>
    cases n with
    | zero => omega
    | succ k =>
      cases m with
      | zero => rfl
      | succ j =>
        simp only [List.eraseIdx, List.getD, List.get?]
        exact ih k j (by omega)

theorem set_eq_take_cons_drop {α : Type} (l : List α) (n : Nat) (v : α) (h : n < l.length) :
    l.set n v = l.take n ++ v :: l.drop (n + 1) := by
  induction l generalizing n with
  | nil => simp at h
  | cons a t ih =>
    cases n with
    | zero => rfl
    | succ m =>
      simp only [List.set, List.take, List.drop, List.cons_append, List.cons.injEq,
        true_and]
      exact ih m (by simpa using Nat.lt_of_succ_lt_succ h)

theorem take_cons_getD_drop {α : Type} (l : List α) (n : Nat) (d : α) (h : n < l.length) :
    l.take n ++ l.getD n d :: l.drop (n + 1) = l := by
  induction l generalizing n with
  | nil => simp at h
  | cons a t ih =>
    cases n with
    | zero => rfl
    | succ m =>
      simp only [List.take, List.getD, List.get?, List.drop, List.cons_append,
        List.cons.injEq, true_and]
      exact ih m (by simpa using Nat.lt_of_succ_lt_succ h)

theorem take_append_len_add {α : Type} (l1 l2 : List α) (k : Nat) :
    (l1 ++ l2).take (l1.length + k) = l1 ++ l2.take k := by
  induction l1 with
  | nil => simp
  | cons a t ih =>
    simp only [List.cons_append, List.length_cons]
    rw [Nat.succ_add]
    simp only [List.take]
    rw [ih]

theorem drop_append_len_add {α : Type} (l1 l2 : List α) (k : Nat) :
    (l1 ++ l2).drop (l1.length + k) = l2.drop k := by
  induction l1 with
  | nil => simp
  | cons a t ih =>
    simp only [List.cons_append, List.length_cons]
    rw [Nat.succ_add]
    simp only [List.drop]
    exact ih

theorem getD_append_left {α : Type} (l1 l2 : List α) (m : Nat) (d : α) (h : m < l1.length) :
    (l1 ++ l2).getD m d = l1.getD m d := by
  induction l1 generalizing m with
  | nil => simp at h
  | cons a t ih =>
    cases m with
    | zero => rfl
    | succ j =>
      simp only [List.cons_append, List.getD, List.get?]
      exact ih j (by simpa using Nat.lt_of_succ_lt_succ h)

theorem getD_append_len_add {α : Type} (l1 l2 : List α) (k : Nat) (d : α) :
    (l1 ++ l2).getD (l1.length + k) d = l2.getD k d := by
  induction l1 with
  | nil => simp
  | cons a t ih =>
    simp only [List.cons_append, List.length_cons]
    rw [Nat.succ_add]
    simp only [List.getD, List.get?]
    exact ih

theorem set_append_len {α : Type} (l1 l2 : List α) (a v : α) :
    (l1 ++ a :: l2).set l1.length v = l1 ++ v :: l2 := by
  induction l1 with
  | nil => rfl
  | cons b t ih =>
    simp only [List.cons_append, List.length_cons, List.set, List.cons.injEq, true_and]
    exact ih

theorem eraseIdx_append_len {α : Type} (l1 l2 : List α) (a : α) :
    (l1 ++ a :: l2).eraseIdx l1.length = l1 ++ l2 := by
  induction l1 with
  | nil => rfl
  | cons b t ih =>
    simp only [List.cons_append, List.length_cons, List.eraseIdx, List.cons.injEq, true_and]
    exact ih

theorem length_pyInsert (n : Nat) (x : Str) (l : List Str) :
    (pyInsert n x l).length = l.length + 1 := by
  simp only [pyInsert, List.length_append, List.length_take, List.length_cons,
    List.length_drop]
  omega

/-! ### Lemmas about the substring search -/

theorem strFindAux_some_spec (q : Str) :
    ∀ (s : Str) (i p : Nat), strFindAux q s i = some p →
      i ≤ p ∧ matchesAt s q (p - i) ∧ ∀ d, d < p - i → ¬ matchesAt s q d := by
  intro s
  induction s with
  | nil =>
    intro i p h
    simp only [strFindAux] at h
    by_cases hq : q = []
    · subst hq
      simp at h
      subst h
      exact ⟨Nat.le_refl _, by simp [matchesAt], by omega⟩
    · simp [hq] at h
  | cons c rest ih =>
    intro i p h
    simp only [strFindAux] at h
    by_cases hc : (c :: rest).take q.length = q
    · simp only [hc, if_pos rfl, if_true, Option.some.injEq] at h
      subst h
      refine ⟨Nat.le_refl _, ?_, by omega⟩
      simpa [matchesAt] using hc
    · rw [if_neg hc] at h
      obtain ⟨h1, h2, h3⟩ := ih (i + 1) p h
      refine ⟨by omega, ?_, ?_⟩
      · have : p - i = (p - (i + 1)) + 1 := by omega
        rw [this]
        simpa [matchesAt] using h2
      · intro d hd
        cases d with
        | zero => simpa [matchesAt] using hc
        | succ e =>
          have he : e < p - (i + 1) := by omega
          have := h3 e he
          simpa [matchesAt] using this

theorem strFindAux_none_spec (q : Str) :
    ∀ (s : Str) (i : Nat), strFindAux q s i = none → ∀ d, ¬ matchesAt s q d := by
  intro s
  induction s with
  | nil =>
    intro i h d
    simp only [strFindAux] at h
    by_cases hq : q = []
    · simp [hq] at h
    · simp [matchesAt, hq]
  | cons c rest ih =>
    intro i h d
    simp only [strFindAux] at h
    by_cases hc : (c :: rest).take q.length = q
    · simp [hc] at h
    · rw [if_neg hc] at h
      cases d with
      | zero => simpa [matchesAt] using hc
      | succ e =>
        have := ih (i + 1) h e
        simpa [matchesAt] using this

theorem strFindAux_none_of (q : Str) :
    ∀ (s : Str) (i : Nat), (∀ d, ¬ matchesAt s q d) → strFindAux q s i = none := by
  intro s
  induction s with
  | nil =>
    intro i h
    simp only [strFindAux]
    have := h 0
    simp [matchesAt] at this
    simp [this]
  | cons c rest ih =>
    intro i h
    simp only [strFindAux]
    have h0 : ¬ (c :: rest).take q.length = q := by
      have := h 0
      simpa [matchesAt] using this
    rw [if_neg h0]
    refine ih (i + 1) ?_
    intro d hd
    have := h (d + 1)
    exact this (by simpa [matchesAt] using hd)

theorem strFind_some_spec {s q : Str} {p : Nat} (h : strFind s q = some p) :
    matchesAt s q p ∧ ∀ d, d < p → ¬ matchesAt s q d := by
  obtain ⟨_, h2, h3⟩ := strFindAux_some_spec q s 0 p h
  rw [Nat.sub_zero] at h2 h3
  exact ⟨h2, h3⟩

theorem strFind_none_iff {s q : Str} :
    strFind s q = none ↔ ∀ d, ¬ matchesAt s q d := by
  constructor
  · intro h
    exact strFindAux_none_spec q s 0 h
  · intro h
    exact strFindAux_none_of q s 0 h

theorem matchesAt_length_le {s q : Str} {p : Nat} (hq : q ≠ []) (h : matchesAt s q p) :
    p + q.length ≤ s.length := by
  unfold matchesAt at h
  have hlen : ((s.drop p).take q.length).length = q.length := by rw [h]
  simp only [List.length_take, List.length_drop] at hlen
  have hp : p ≤ s.length := by
    by_contra hcon
    have hdrop : s.drop p = [] := List.drop_eq_nil_of_le (by omega)
    rw [hdrop] at h
    simp at h
    exact hq h
  omega

theorem strFind_some_le {s q : Str} {p : Nat} (hq : q ≠ []) (h : strFind s q = some p) :
    p + q.length ≤ s.length :=
  matchesAt_length_le hq (strFind_some_spec h).1

/-- Occurrences in a suffix are occurrences of the whole, shifted. -/
theorem matchesAt_drop (s q : Str) (k d : Nat) :
    matchesAt (s.drop k) q d ↔ matchesAt s q (k + d) := by
  unfold matchesAt
  rw [List.drop_drop]

/-! ### Lemmas about the row-range scan -/

theorem findInRangeGo_some_spec (lines : List Str) (q : Str) :
    ∀ (fuel a y p : Nat), findInRangeGo lines q fuel a = some (y, p) →
      a ≤ y ∧ y < a + fuel ∧ strFind (lines.getD y []) q = some p ∧
        ∀ z, a ≤ z → z < y → strFind (lines.getD z []) q = none := by
  intro fuel
  induction fuel with
  | zero => intro a y p h; simp [findInRangeGo] at h
  | succ f ih =>
    intro a y p h
    simp only [findInRangeGo] at h
    cases hf : strFind (lines.getD a []) q with
    | some r =>
      rw [hf] at h
      simp only [Option.some.injEq, Prod.mk.injEq] at h
      obtain ⟨hy, hp⟩ := h
      subst hy
      subst hp
      exact ⟨Nat.le_refl _, by omega, hf, by omega⟩
    | none =>
      rw [hf] at h
      obtain ⟨h1, h2, h3, h4⟩ := ih (a + 1) y p h
      refine ⟨by omega, by omega, h3, ?_⟩
      intro z hz1 hz2
      rcases Nat.eq_or_lt_of_le hz1 with hz | hz
      · rw [← hz]; exact hf
      · exact h4 z hz hz2

theorem findInRangeGo_none_of (lines : List Str) (q : Str) :
    ∀ (fuel a : Nat), (∀ z, a ≤ z → z < a + fuel → strFind (lines.getD z []) q = none) →
      findInRangeGo lines q fuel a = none := by
  intro fuel
  induction fuel with
  | zero => intro a _; rfl
  | succ f ih =>
    intro a h
    simp only [findInRangeGo]
    rw [h a (Nat.le_refl _) (by omega)]
    exact ih (a + 1) (fun z hz1 hz2 => h z (by omega) (by omega))

theorem findInRange_some_spec {lines : List Str} {q : Str} {a b y p : Nat}
    (h : findInRange lines q a b = some (y, p)) :
    a ≤ y ∧ y < b ∧ strFind (lines.getD y []) q = some p ∧
      ∀ z, a ≤ z → z < y → strFind (lines.getD z []) q = none := by
  obtain ⟨h1, h2, h3, h4⟩ := findInRangeGo_some_spec lines q (b - a) a y p h
  exact ⟨h1, by omega, h3, h4⟩

theorem findInRange_none_of {lines : List Str} {q : Str} {a b : Nat}
    (h : ∀ z, a ≤ z → z < b → strFind (lines.getD z []) q = none) :
    findInRange lines q a b = none :=
  findInRangeGo_none_of lines q (b - a) a (fun z hz1 hz2 => h z hz1 (by omega))

/-! ### Frame facts about scrolling and saving -/

@[simp]
theorem adjust_scroll_lines (height width : Nat) (s : EditorState) :
    (adjust_scroll height width s).lines = s.lines := rfl

@[simp]
theorem adjust_scroll_cursor_y (height width : Nat) (s : EditorState) :
    (adjust_scroll height width s).cursor_y = s.cursor_y := rfl

@[simp]
theorem adjust_scroll_cursor_x (height width : Nat) (s : EditorState) :
    (adjust_scroll height width s).cursor_x = s.cursor_x := rfl

@[simp]
theorem adjust_scroll_modified (height width : Nat) (s : EditorState) :
    (adjust_scroll height width s).modified = s.modified := rfl

@[simp]
theorem adjust_scroll_message (height width : Nat) (s : EditorState) :
    (adjust_scroll height width s).message = s.message := rfl

@[simp]
theorem adjust_scroll_message_type (height width : Nat) (s : EditorState) :
    (adjust_scroll height width s).message_type = s.message_type := rfl

@[simp]
theorem adjust_scroll_filename (height width : Nat) (s : EditorState) :
    (adjust_scroll height width s).filename = s.filename := rfl

theorem save_file_frame (writeRes fname : Option Str) (s : EditorState) :
    (save_file writeRes fname s).2.lines = s.lines ∧
      (save_file writeRes fname s).2.cursor_y = s.cursor_y ∧
      (save_file writeRes fname s).2.cursor_x = s.cursor_x := by
  simp only [save_file]
  repeat' split
  all_goals exact ⟨rfl, rfl, rfl⟩

theorem confirm_exit_frame (writeRes : Option Str) (ans : ExitAnswer) (input : Str)
    (s : EditorState) :
    (confirm_exit writeRes ans input s).2.lines = s.lines ∧
      (confirm_exit writeRes ans input s).2.cursor_y = s.cursor_y ∧
      (confirm_exit writeRes ans input s).2.cursor_x = s.cursor_x := by
  simp only [confirm_exit]
  repeat' split
  all_goals first
    | exact ⟨rfl, rfl, rfl⟩
    | exact save_file_frame _ _ _

/-! ### Invariant preservation of the single operations -/

theorem move_cursor_inv (height width : Nat) (dy dx : Int) (s : EditorState)
    (h : s.lines ≠ []) : Inv (move_cursor height width dy dx s) := by
  have hlen : 0 < s.lines.length := List.length_pos.mpr h
  simp only [move_cursor, Inv, adjust_scroll_lines, adjust_scroll_cursor_y,
    adjust_scroll_cursor_x]
  refine ⟨h, ?_, ?_⟩ <;> omega

theorem insert_char_inv (height width : Nat) (ch : Str) (s : EditorState)
    (hch : ch ≠ []) (hInv : Inv s) : Inv (insert_char height width ch s) := by
  obtain ⟨h1, h2, h3⟩ := hInv
  have hchl : 0 < ch.length := List.length_pos.mpr hch
  simp only [insert_char, Inv, adjust_scroll_lines, adjust_scroll_cursor_y,
    adjust_scroll_cursor_x, List.length_set]
  refine ⟨fun hc => h1 (by simpa using congrArg List.length hc), h2, ?_⟩
  rw [getD_set_self _ _ _ _ h2]
  simp only [List.length_append, List.length_take, List.length_drop]
  omega

theorem insert_char_weakInv (height width : Nat) (ch : Str) (s : EditorState)
    (hInv : WeakInv s) : WeakInv (insert_char height width ch s) := by
  obtain ⟨h1, h2⟩ := hInv
  simp only [insert_char, WeakInv, adjust_scroll_lines, adjust_scroll_cursor_y,
    List.length_set]
  exact ⟨fun hc => h1 (by simpa using congrArg List.length hc), h2⟩

theorem delete_char_inv (height width : Nat) (s : EditorState)
    (hInv : Inv s) : Inv (delete_char s) := by
  obtain ⟨h1, h2, h3⟩ := hInv
  have hlen : 0 < s.lines.length := List.length_pos.mpr h1
  simp only [delete_char]
  split
  · rename_i hlt
    refine ⟨fun hc => h1 (by simpa using congrArg List.length hc), by simpa using h2, ?_⟩
    simp only [List.length_set]
    rw [getD_set_self _ _ _ _ h2]
    simp only [List.length_append, List.length_take, List.length_drop]
    omega
  · split
    · rename_i hge hy
      have hy1 : s.cursor_y + 1 < s.lines.length := by omega
      have hlen2 : ((s.lines.set s.cursor_y
          (s.lines.getD s.cursor_y [] ++ s.lines.getD (s.cursor_y + 1) [])).eraseIdx
          (s.cursor_y + 1)).length = s.lines.length - 1 := by
        rw [length_eraseIdx_lt _ _ (by simpa using hy1)]
        simp
      simp only [Inv]
      refine ⟨?_, ?_, ?_⟩
      · intro hc
        rw [hc] at hlen2
        simp at hlen2
        omega
      · simp only [hlen2]
        omega
      · rw [getD_eraseIdx_lt _ _ _ _ (by omega),
          getD_set_self _ _ _ _ h2]
        simp only [List.length_append]
        omega
    · exact ⟨h1, h2, h3⟩

theorem delete_char_weakInv (s : EditorState)
    (hInv : WeakInv s) : WeakInv (delete_char s) := by
  obtain ⟨h1, h2⟩ := hInv
  have hlen : 0 < s.lines.length := List.length_pos.mpr h1
  simp only [delete_char]
  split
  · exact ⟨fun hc => h1 (by simpa using congrArg List.length hc), by simpa using h2⟩
  · split
    · rename_i hge hy
      have hy1 : s.cursor_y + 1 < s.lines.length := by omega
      have hlen2 : ((s.lines.set s.cursor_y
          (s.lines.getD s.cursor_y [] ++ s.lines.getD (s.cursor_y + 1) [])).eraseIdx
          (s.cursor_y + 1)).length = s.lines.length - 1 := by
        rw [length_eraseIdx_lt _ _ (by simpa using hy1)]
        simp
      simp only [WeakInv]
      refine ⟨?_, ?_⟩
      · intro hc
        rw [hc] at hlen2
        simp at hlen2
        omega
      · simp only [hlen2]
        omega
    · exact ⟨h1, h2⟩

theorem backspace_inv (height width : Nat) (s : EditorState)
    (hInv : Inv s) : Inv (backspace height width s) := by
  obtain ⟨h1, h2, h3⟩ := hInv
  have hlen : 0 < s.lines.length := List.length_pos.mpr h1
  simp only [backspace]
  split
  · rename_i hx
    simp only [Inv, adjust_scroll_lines, adjust_scroll_cursor_y, adjust_scroll_cursor_x,
      List.length_set]
    refine ⟨fun hc => h1 (by simpa using congrArg List.length hc), h2, ?_⟩
    rw [getD_set_self _ _ _ _ h2]
    simp only [List.length_append, List.length_take, List.length_drop]
    omega
  · split
    · rename_i hx hy
      have hym : s.cursor_y - 1 < s.cursor_y := by omega
      have hlen2 : ((s.lines.set (s.cursor_y - 1)
          (s.lines.getD (s.cursor_y - 1) [] ++ s.lines.getD s.cursor_y [])).eraseIdx
          s.cursor_y).length = s.lines.length - 1 := by
        rw [length_eraseIdx_lt _ _ (by simpa using h2)]
        simp
      simp only [Inv, adjust_scroll_lines, adjust_scroll_cursor_y, adjust_scroll_cursor_x]
      refine ⟨?_, ?_, ?_⟩
      · intro hc
        rw [hc] at hlen2
        simp at hlen2
        omega
      · simp only [hlen2]
        omega
      · rw [getD_eraseIdx_lt _ _ _ _ hym, getD_set_self _ _ _ _ (by omega)]
        simp only [List.length_append]
        omega
    · simp only [Inv, adjust_scroll_lines, adjust_scroll_cursor_y, adjust_scroll_cursor_x]
      exact ⟨h1, h2, h3⟩

theorem backspace_weakInv (height width : Nat) (s : EditorState)
    (hInv : WeakInv s) : WeakInv (backspace height width s) := by
  obtain ⟨h1, h2⟩ := hInv
  have hlen : 0 < s.lines.length := List.length_pos.mpr h1
  simp only [backspace]
  split
  · simp only [WeakInv, adjust_scroll_lines, adjust_scroll_cursor_y, List.length_set]
    exact ⟨fun hc => h1 (by simpa using congrArg List.length hc), h2⟩
  · split
    · rename_i hx hy
      have hlen2 : ((s.lines.set (s.cursor_y - 1)
          (s.lines.getD (s.cursor_y - 1) [] ++ s.lines.getD s.cursor_y [])).eraseIdx
          s.cursor_y).length = s.lines.length - 1 := by
        rw [length_eraseIdx_lt _ _ (by simpa using h2)]
        simp
      simp only [WeakInv, adjust_scroll_lines, adjust_scroll_cursor_y]
      refine ⟨?_, ?_⟩
      · intro hc
        rw [hc] at hlen2
        simp at hlen2
        omega
      · simp only [hlen2]
        omega
    · simp only [WeakInv, adjust_scroll_lines, adjust_scroll_cursor_y]
      exact ⟨h1, h2⟩

theorem insert_newline_inv (height width : Nat) (s : EditorState)
    (hInv : WeakInv s) : Inv (insert_newline height width s) := by
  obtain ⟨h1, h2⟩ := hInv
  simp only [insert_newline, Inv, adjust_scroll_lines, adjust_scroll_cursor_y,
    adjust_scroll_cursor_x, length_pyInsert, List.length_set]
  refine ⟨?_, by omega, by omega⟩
  intro hc
  have hlc := congrArg List.length hc
  simp [length_pyInsert] at hlc

theorem search_inv (height width : Nat) (q : Str) (s : EditorState)
    (hInv : Inv s) : Inv (search height width q s) := by
  obtain ⟨h1, h2, h3⟩ := hInv
  simp only [search]
  by_cases hq : q = []
  · simp only [hq, if_true]
    exact ⟨h1, h2, h3⟩
  · rw [if_neg hq]
    cases hfo : strFind ((s.lines.getD s.cursor_y []).drop (s.cursor_x + 1)) q with
    | some pos =>
      have hb := strFind_some_le hq hfo
      have hql : 0 < q.length := List.length_pos.mpr hq
      simp only [List.length_drop] at hb
      simp only [Inv, adjust_scroll_lines, adjust_scroll_cursor_y, adjust_scroll_cursor_x]
      exact ⟨h1, h2, by omega⟩
    | none =>
      simp only
      cases hff : findInRange s.lines q (s.cursor_y + 1) s.lines.length with
      | some yp =>
        obtain ⟨y, p⟩ := yp
        obtain ⟨hy1, hy2, hy3, _⟩ := findInRange_some_spec hff
        have hb := strFind_some_le hq hy3
        have hql : 0 < q.length := List.length_pos.mpr hq
        simp only [Inv, adjust_scroll_lines, adjust_scroll_cursor_y, adjust_scroll_cursor_x]
        exact ⟨h1, hy2, by omega⟩
      | none =>
        simp only
        cases hfw : findInRange s.lines q 0 s.cursor_y with
        | some yp =>
          obtain ⟨y, p⟩ := yp
          obtain ⟨hy1, hy2, hy3, _⟩ := findInRange_some_spec hfw
          have hb := strFind_some_le hq hy3
          have hql : 0 < q.length := List.length_pos.mpr hq
          simp only [Inv, adjust_scroll_lines, adjust_scroll_cursor_y,
            adjust_scroll_cursor_x]
          exact ⟨h1, by omega, by omega⟩
        | none =>
          exact ⟨h1, h2, h3⟩

theorem search_weakInv (height width : Nat) (q : Str) (s : EditorState)
    (hInv : WeakInv s) : WeakInv (search height width q s) := by
  obtain ⟨h1, h2⟩ := hInv
  simp only [search]
  by_cases hq : q = []
  · simp only [hq, if_true]
    exact ⟨h1, h2⟩
  · rw [if_neg hq]
    cases hfo : strFind ((s.lines.getD s.cursor_y []).drop (s.cursor_x + 1)) q with
    | some pos =>
      simp only [WeakInv, adjust_scroll_lines, adjust_scroll_cursor_y]
      exact ⟨h1, h2⟩
    | none =>
      simp only
      cases hff : findInRange s.lines q (s.cursor_y + 1) s.lines.length with
      | some yp =>
        obtain ⟨y, p⟩ := yp
        obtain ⟨hy1, hy2, _, _⟩ := findInRange_some_spec hff
        simp only [WeakInv, adjust_scroll_lines, adjust_scroll_cursor_y]
        exact ⟨h1, hy2⟩
      | none =>
        simp only
        cases hfw : findInRange s.lines q 0 s.cursor_y with
        | some yp =>
          obtain ⟨y, p⟩ := yp
          obtain ⟨hy1, hy2, _, _⟩ := findInRange_some_spec hfw
          simp only [WeakInv, adjust_scroll_lines, adjust_scroll_cursor_y]
          exact ⟨h1, by omega⟩
        | none =>
          exact ⟨h1, h2⟩

/-! ### Invariant preservation of the dispatcher -/

theorem inv_weak {s : EditorState} (h : Inv s) : WeakInv s :=
  ⟨h.1, h.2.1⟩

theorem loadLines_ne_nil (content : Str) : loadLines content ≠ [] := by
  simp only [loadLines]
  split
  · simp
  · assumption

theorem initState_inv (arg : StartArg) : Inv (initState arg) := by
  cases arg with
  | noFile => refine ⟨?_, ?_, ?_⟩ <;> simp [initState]
  | newFile name => refine ⟨?_, ?_, ?_⟩ <;> simp [initState]
  | readFile name content =>
    refine ⟨?_, ?_, ?_⟩
    · simpa [initState] using loadLines_ne_nil content
    · simpa [initState] using List.length_pos.mpr (loadLines_ne_nil content)
    · simp [initState]
  | readErr name e => refine ⟨?_, ?_, ?_⟩ <;> simp [initState]

theorem dispatch_inv (height width : Nat) (k : Key) (s : EditorState) (cb : Str)
    (hInv : Inv s) (hk : k ≠ Key.ctrlU) :
    Inv (dispatch height width k s cb).1 := by
  obtain ⟨h1, h2, h3⟩ := hInv
  have hlen : 0 < s.lines.length := List.length_pos.mpr h1
  cases k with
  | ctrlX ans input writeRes =>
    obtain ⟨e1, e2, e3⟩ := confirm_exit_frame writeRes ans input s
    simp only [dispatch, Inv]
    rw [e1, e2, e3]
    exact ⟨h1, h2, h3⟩
  | ctrlO input writeRes =>
    simp only [dispatch]
    split
    · obtain ⟨e1, e2, e3⟩ := save_file_frame writeRes (prompt_save_filename s input) s
      simp only [Inv]
      rw [e1, e2, e3]
      exact ⟨h1, h2, h3⟩
    · exact ⟨h1, h2, h3⟩
  | ctrlW input =>
    simp only [dispatch]
    cases input with
    | none => exact ⟨h1, h2, h3⟩
    | some q =>
      simp only
      split
      · exact ⟨h1, h2, h3⟩
      · exact search_inv height width q s ⟨h1, h2, h3⟩
  | ctrlK =>
    simp only [dispatch]
    split
    · exact ⟨h1, h2, h3⟩
    · rename_i hne
      have hlen0 : (s.lines.eraseIdx s.cursor_y).length = s.lines.length - 1 :=
        length_eraseIdx_lt _ _ h2
      simp only [Inv]
      by_cases he : (s.lines.eraseIdx s.cursor_y).isEmpty
      · simp only [he, if_true]
        refine ⟨by simp, ?_, by simp⟩
        split
        · simp
        · rename_i hcy
          simp only [List.length_cons, List.length_nil] at *
          omega
      · simp only [he, if_false, Bool.false_eq_true]
        have hne0 : s.lines.eraseIdx s.cursor_y ≠ [] := by
          intro hc
          rw [hc] at he
          simp at he
        have hpos : 0 < (s.lines.eraseIdx s.cursor_y).length := List.length_pos.mpr hne0
        refine ⟨hne0, ?_, by simp⟩
        split <;> omega
  | ctrlU => exact absurd rfl hk
  | ctrlG => exact ⟨h1, h2, h3⟩
  | ctrlA =>
    simp only [dispatch, Inv, adjust_scroll_lines, adjust_scroll_cursor_y,
      adjust_scroll_cursor_x]
    exact ⟨h1, h2, by simp⟩
  | ctrlE =>
    simp only [dispatch, Inv, adjust_scroll_lines, adjust_scroll_cursor_y,
      adjust_scroll_cursor_x]
    exact ⟨h1, h2, by simp⟩
  | up => exact move_cursor_inv height width (-1) 0 s h1
  | down => exact move_cursor_inv height width 1 0 s h1
  | left =>
    simp only [dispatch]
    split
    · exact move_cursor_inv height width 0 (-1) s h1
    · split
      · rename_i hx hy
        simp only [Inv, adjust_scroll_lines, adjust_scroll_cursor_y, adjust_scroll_cursor_x]
        exact ⟨h1, by omega, by simp⟩
      · exact ⟨h1, h2, h3⟩
  | right =>
    simp only [dispatch]
    split
    · exact move_cursor_inv height width 0 1 s h1
    · split
      · rename_i hx hy
        simp only [Inv, adjust_scroll_lines, adjust_scroll_cursor_y, adjust_scroll_cursor_x]
        exact ⟨h1, by omega, by simp⟩
      · exact ⟨h1, h2, h3⟩
  | home =>
    simp only [dispatch, Inv, adjust_scroll_lines, adjust_scroll_cursor_y,
      adjust_scroll_cursor_x]
    exact ⟨h1, h2, by simp⟩
  | endKey =>
    simp only [dispatch, Inv, adjust_scroll_lines, adjust_scroll_cursor_y,
      adjust_scroll_cursor_x]
    exact ⟨h1, h2, by simp⟩
  | pageUp => exact move_cursor_inv height width (-(height : Int)) 0 s h1
  | pageDown => exact move_cursor_inv height width (height : Int) 0 s h1
  | enter => exact insert_newline_inv height width s ⟨h1, h2⟩
  | backspaceKey => exact backspace_inv height width s ⟨h1, h2, h3⟩
  | deleteKey => exact delete_char_inv height width s ⟨h1, h2, h3⟩
  | tab =>
    exact insert_char_inv height width _ s (by simp) ⟨h1, h2, h3⟩
  | printable c =>
    simp only [dispatch]
    split
    · exact insert_char_inv height width [c] s (by simp) ⟨h1, h2, h3⟩
    · exact ⟨h1, h2, h3⟩

theorem dispatch_weakInv (height width : Nat) (k : Key) (s : EditorState) (cb : Str)
    (hInv : WeakInv s) : WeakInv (dispatch height width k s cb).1 := by
  obtain ⟨h1, h2⟩ := hInv
  have hlen : 0 < s.lines.length := List.length_pos.mpr h1
  cases k with
  | ctrlX ans input writeRes =>
    obtain ⟨e1, e2, e3⟩ := confirm_exit_frame writeRes ans input s
    simp only [dispatch, WeakInv]
    rw [e1, e2]
    exact ⟨h1, h2⟩
  | ctrlO input writeRes =>
    simp only [dispatch]
    split
    · obtain ⟨e1, e2, e3⟩ := save_file_frame writeRes (prompt_save_filename s input) s
      simp only [WeakInv]
      rw [e1, e2]
      exact ⟨h1, h2⟩
    · exact ⟨h1, h2⟩
  | ctrlW input =>
    simp only [dispatch]
    cases input with
    | none => exact ⟨h1, h2⟩
    | some q =>
      simp only
      split
      · exact ⟨h1, h2⟩
      · exact search_weakInv height width q s ⟨h1, h2⟩
  | ctrlK =>
    simp only [dispatch]
    split
    · exact ⟨h1, h2⟩
    · rename_i hne
      have hlen0 : (s.lines.eraseIdx s.cursor_y).length = s.lines.length - 1 :=
        length_eraseIdx_lt _ _ h2
      simp only [WeakInv]
      by_cases he : (s.lines.eraseIdx s.cursor_y).isEmpty
      · simp only [he, if_true]
        refine ⟨by simp, ?_⟩
        split
        · simp
        · rename_i hcy
          simp only [List.length_cons, List.length_nil] at *
          omega
      · simp only [he, if_false, Bool.false_eq_true]
        have hne0 : s.lines.eraseIdx s.cursor_y ≠ [] := by
          intro hc
          rw [hc] at he
          simp at he
        have hpos : 0 < (s.lines.eraseIdx s.cursor_y).length := List.length_pos.mpr hne0
        refine ⟨hne0, ?_⟩
        split <;> omega
  | ctrlU =>
    simp only [dispatch]
    split
    · exact ⟨h1, h2⟩
    · simp only [WeakInv, length_pyInsert]
      refine ⟨?_, by omega⟩
      intro hc
      have hlc := congrArg List.length hc
      simp [length_pyInsert] at hlc
  | ctrlG => exact ⟨h1, h2⟩
  | ctrlA =>
    simp only [dispatch, WeakInv, adjust_scroll_lines, adjust_scroll_cursor_y]
    exact ⟨h1, h2⟩
  | ctrlE =>
    simp only [dispatch, WeakInv, adjust_scroll_lines, adjust_scroll_cursor_y]
    exact ⟨h1, h2⟩
  | up => exact inv_weak (move_cursor_inv height width (-1) 0 s h1)
  | down => exact inv_weak (move_cursor_inv height width 1 0 s h1)
  | left =>
    simp only [dispatch]
    split
    · exact inv_weak (move_cursor_inv height width 0 (-1) s h1)
    · split
      · rename_i hx hy
        simp only [WeakInv, adjust_scroll_lines, adjust_scroll_cursor_y]
        exact ⟨h1, by omega⟩
      · exact ⟨h1, h2⟩
  | right =>
    simp only [dispatch]
    split
    · exact inv_weak (move_cursor_inv height width 0 1 s h1)
    · split
      · rename_i hx hy
        simp only [WeakInv, adjust_scroll_lines, adjust_scroll_cursor_y]
        exact ⟨h1, by omega⟩
      · exact ⟨h1, h2⟩
  | home =>
    simp only [dispatch, WeakInv, adjust_scroll_lines, adjust_scroll_cursor_y]
    exact ⟨h1, h2⟩
  | endKey =>
    simp only [dispatch, WeakInv, adjust_scroll_lines, adjust_scroll_cursor_y]
    exact ⟨h1, h2⟩
  | pageUp => exact inv_weak (move_cursor_inv height width (-(height : Int)) 0 s h1)
  | pageDown => exact inv_weak (move_cursor_inv height width (height : Int) 0 s h1)
  | enter => exact inv_weak (insert_newline_inv height width s ⟨h1, h2⟩)
  | backspaceKey => exact backspace_weakInv height width s ⟨h1, h2⟩
  | deleteKey => exact delete_char_weakInv s ⟨h1, h2⟩
  | tab => exact insert_char_weakInv height width _ s ⟨h1, h2⟩
  | printable c =>
    simp only [dispatch]
    split
    · exact insert_char_weakInv height width [c] s ⟨h1, h2⟩
    · exact ⟨h1, h2⟩

theorem reachable_weakInv {height width : Nat} {s : EditorState} {cb : Str}
    (h : Reachable height width s cb) : WeakInv s := by
  induction h with
  | init arg => exact inv_weak (initState_inv arg)
  | step hr k ih => exact dispatch_weakInv _ _ _ _ _ ih

theorem reachable_dispatchList (height width : Nat) (ks : List Key)
    {p : EditorState × Str} (h : Reachable height width p.1 p.2) :
    Reachable height width (dispatchList height width ks p).1
      (dispatchList height width ks p).2 := by
  induction ks generalizing p with
  | nil => exact h
  | cons k t ih =>
    simp only [dispatchList, List.foldl]
    exact ih (Reachable.step h k)

/-! ### Claim C1 -/

/-- The key sequence whose final PasteLine leaves the cursor column beyond
the end of the pasted line: type a one-character line and a five-character
line, move onto the short line, cut it, jump to the end of the long line,
and paste. -/
def pasteBreakKeys : List Key :=
  [.printable (Char.ofNat 120), .enter, .printable (Char.ofNat 104),
   .printable (Char.ofNat 101), .printable (Char.ofNat 108),
   .printable (Char.ofNat 108), .printable (Char.ofNat 111),
   .up, .ctrlA, .ctrlK, .ctrlE, .ctrlU]

/-- The state those keys produce: buffer `["x", "hello"]` with the cursor
at row 0, column 5, although row 0 holds the one-character line `"x"`. -/
def pasteBrokenState : EditorState :=
  ⟨none, ["x".toList, "hello".toList], 0, 5, 0, 0, true, msgPastedLine, infoTy⟩

/-- Claim C1 counterexample: a reachable state (produced by a PasteLine at
the end of a line longer than the pasted clipboard line) violates the
claimed cursor-column invariant. -/
theorem paste_breaks_column_bound :
    Reachable 20 80 pasteBrokenState "x".toList ∧ ¬ Inv pasteBrokenState := by
  constructor
  · have h0 : Reachable 20 80 (initState StartArg.noFile) [] := .init _
    have h1 := reachable_dispatchList 20 80 pasteBreakKeys
      (p := (initState StartArg.noFile, [])) h0
    have he : dispatchList 20 80 pasteBreakKeys (initState StartArg.noFile, []) =
        (pasteBrokenState, "x".toList) := by decide
    rw [he] at h1
    exact h1
  · decide

/-- Claim C1 (amended): every start state satisfies the full invariant
(non-empty buffer, cursor row in `[0, lineCount-1]`, cursor column in
`[0, length(line[row])]`); every dispatched command other than PasteLine
(Ctrl+U) preserves the full invariant; every command, PasteLine included,
preserves the weak invariant (non-empty buffer, in-range row), so every
reachable state satisfies the weak invariant.  The column bound is not an
invariant of all reachable states: PasteLine inserts the clipboard line at
the cursor row without re-clamping the column (see the counterexample). -/
theorem editor_invariants :
    (∀ arg : StartArg, Inv (initState arg)) ∧
    (∀ height width k s cb, Inv s → k ≠ Key.ctrlU →
      Inv (dispatch height width k s cb).1) ∧
    (∀ height width k s cb, WeakInv s → WeakInv (dispatch height width k s cb).1) ∧
    (∀ height width s cb, Reachable height width s cb → WeakInv s) :=
  ⟨initState_inv,
   fun height width k s cb hi hk => dispatch_inv height width k s cb hi hk,
   fun height width k s cb hw => dispatch_weakInv height width k s cb hw,
   fun _ _ _ _ hr => reachable_weakInv hr⟩

/-- Witness for C1: the amended theorem applied at a concrete state and
command, with its hypotheses discharged by evaluation. -/
theorem editor_invariants_witness :
    Inv (dispatch 20 80 Key.enter (initState StartArg.noFile) []).1 ∧
    WeakInv (dispatch 20 80 Key.ctrlU (initState StartArg.noFile) "x".toList).1 :=
  ⟨editor_invariants.2.1 20 80 Key.enter (initState StartArg.noFile) []
      (by decide) (by decide),
   editor_invariants.2.2.1 20 80 Key.ctrlU (initState StartArg.noFile) "x".toList
      (by decide)⟩

/-! ### Claim C2 -/

/-- Claim C2 (code bug in `atomo.py`): the Tab command splices the 4-space
text into the line, but `atomo.py` advances the cursor column by `1`
rather than by `len(text) = 4`; the repository's own commented copy
`atomo_commentato.py` advances it by `len(text)`. -/
theorem tab_advances_one_not_len :
    ("    ".toList : Str).length = 4 ∧
    (dispatch 20 80 Key.tab (initState StartArg.noFile) []).1.lines = ["    ".toList] ∧
    (dispatch 20 80 Key.tab (initState StartArg.noFile) []).1.cursor_x = 1 ∧
    (insert_char_commentato 20 80 "    ".toList (initState StartArg.noFile)).cursor_x = 4 := by
  decide

/-! ### Claim C7 -/

/-- Claim C7: splitting a line at the cursor (`insert_newline`, i.e. Enter)
and then deleting backward at the resulting cursor position (`backspace` at
the start of the new line) restores the original buffer and the original
cursor position. -/
theorem split_backspace_inverse (height width : Nat) (s : EditorState)
    (hy : s.cursor_y < s.lines.length)
    (hx : s.cursor_x ≤ (s.lines.getD s.cursor_y []).length) :
    (backspace height width (insert_newline height width s)).lines = s.lines ∧
    (backspace height width (insert_newline height width s)).cursor_y = s.cursor_y ∧
    (backspace height width (insert_newline height width s)).cursor_x = s.cursor_x := by
  have htklen : (s.lines.take s.cursor_y).length = s.cursor_y := by
    rw [List.length_take]
    omega
  have hlinetk : ((s.lines.getD s.cursor_y []).take s.cursor_x).length = s.cursor_x := by
    rw [List.length_take]
    omega
  have e1 : ∀ (b : Str) (C : List Str),
      ((s.lines.take s.cursor_y) ++ b :: C).take (s.cursor_y + 1) =
        (s.lines.take s.cursor_y) ++ [b] := by
    intro b C
    have h := take_append_len_add (s.lines.take s.cursor_y) (b :: C) 1
    rw [htklen] at h
    simpa using h
  have e2 : ∀ (b : Str) (C : List Str),
      ((s.lines.take s.cursor_y) ++ b :: C).drop (s.cursor_y + 1) = C := by
    intro b C
    have h := drop_append_len_add (s.lines.take s.cursor_y) (b :: C) 1
    rw [htklen] at h
    simpa using h
  have hlines1 : (insert_newline height width s).lines =
      s.lines.take s.cursor_y ++
        ((s.lines.getD s.cursor_y []).take s.cursor_x) ::
        ((s.lines.getD s.cursor_y []).drop s.cursor_x) ::
        s.lines.drop (s.cursor_y + 1) := by
    simp only [insert_newline, adjust_scroll_lines, pyInsert]
    rw [set_eq_take_cons_drop _ _ _ hy, e1, e2]
    simp [List.append_assoc]
  have hs1y : (insert_newline height width s).cursor_y = s.cursor_y + 1 := by
    simp [insert_newline]
  have hs1x : (insert_newline height width s).cursor_x = 0 := by
    simp [insert_newline]
  have hgcy : ((insert_newline height width s).lines).getD s.cursor_y [] =
      (s.lines.getD s.cursor_y []).take s.cursor_x := by
    rw [hlines1]
    have h := getD_append_len_add (s.lines.take s.cursor_y)
      (((s.lines.getD s.cursor_y []).take s.cursor_x) ::
        ((s.lines.getD s.cursor_y []).drop s.cursor_x) ::
        s.lines.drop (s.cursor_y + 1)) 0 []
    rw [htklen, Nat.add_zero] at h
    simpa using h
  have hgcy1 : ((insert_newline height width s).lines).getD (s.cursor_y + 1) [] =
      (s.lines.getD s.cursor_y []).drop s.cursor_x := by
    rw [hlines1]
    have h := getD_append_len_add (s.lines.take s.cursor_y)
      (((s.lines.getD s.cursor_y []).take s.cursor_x) ::
        ((s.lines.getD s.cursor_y []).drop s.cursor_x) ::
        s.lines.drop (s.cursor_y + 1)) 1 []
    rw [htklen] at h
    simpa using h
  have hcond1 : ¬ ((insert_newline height width s).cursor_x > 0) := by
    rw [hs1x]
    omega
  have hcond2 : (insert_newline height width s).cursor_y > 0 := by
    rw [hs1y]
    omega
  have hcond2b : s.cursor_y + 1 > 0 := by omega
  simp only [backspace, hcond1, hcond2, hcond2b, if_false, if_true, hs1y, Nat.add_sub_cancel,
    adjust_scroll_lines, adjust_scroll_cursor_y, adjust_scroll_cursor_x]
  refine ⟨?_, ?_, ?_⟩
  · rw [hgcy, hgcy1, hlines1]
    have hset := set_append_len (s.lines.take s.cursor_y)
      (((s.lines.getD s.cursor_y []).drop s.cursor_x) :: s.lines.drop (s.cursor_y + 1))
      ((s.lines.getD s.cursor_y []).take s.cursor_x)
      (((s.lines.getD s.cursor_y []).take s.cursor_x) ++
        ((s.lines.getD s.cursor_y []).drop s.cursor_x))
    rw [htklen] at hset
    rw [hset, List.take_append_drop]
    have hassoc : s.lines.take s.cursor_y ++
        (s.lines.getD s.cursor_y []) ::
        ((s.lines.getD s.cursor_y []).drop s.cursor_x) ::
        s.lines.drop (s.cursor_y + 1) =
        (s.lines.take s.cursor_y ++ [s.lines.getD s.cursor_y []]) ++
        ((s.lines.getD s.cursor_y []).drop s.cursor_x) ::
        s.lines.drop (s.cursor_y + 1) := by
      simp
    have herase : ((s.lines.take s.cursor_y ++ [s.lines.getD s.cursor_y []]) ++
        ((s.lines.getD s.cursor_y []).drop s.cursor_x) ::
        s.lines.drop (s.cursor_y + 1)).eraseIdx (s.cursor_y + 1) =
        (s.lines.take s.cursor_y ++ [s.lines.getD s.cursor_y []]) ++
        s.lines.drop (s.cursor_y + 1) := by
      have h := eraseIdx_append_len
        (s.lines.take s.cursor_y ++ [s.lines.getD s.cursor_y []])
        (s.lines.drop (s.cursor_y + 1))
        ((s.lines.getD s.cursor_y []).drop s.cursor_x)
      have hlen2 : (s.lines.take s.cursor_y ++ [s.lines.getD s.cursor_y []]).length =
          s.cursor_y + 1 := by
        simp [htklen]
      rw [hlen2] at h
      exact h
    rw [hassoc, herase, List.append_assoc]
    simpa using take_cons_getD_drop s.lines s.cursor_y [] hy
  · trivial
  · rw [hgcy]
    exact hlinetk

/-- Witness for C7: the inverse law applied to the concrete buffer
`["hello", "world"]` with the cursor at row 0, column 3. -/
theorem split_backspace_inverse_witness :
    (backspace 20 80 (insert_newline 20 80
        ⟨none, ["hello".toList, "world".toList], 0, 3, 0, 0, false, [], infoTy⟩)).lines =
      ["hello".toList, "world".toList] ∧
    (backspace 20 80 (insert_newline 20 80
        ⟨none, ["hello".toList, "world".toList], 0, 3, 0, 0, false, [], infoTy⟩)).cursor_y = 0 ∧
    (backspace 20 80 (insert_newline 20 80
        ⟨none, ["hello".toList, "world".toList], 0, 3, 0, 0, false, [], infoTy⟩)).cursor_x = 3 :=
  split_backspace_inverse 20 80
    ⟨none, ["hello".toList, "world".toList], 0, 3, 0, 0, false, [], infoTy⟩
    (by decide) (by decide)

/-! ### Claims C6 and C8: persistence -/

theorem splitlines_cons_not_break (c : Char) (rest : Str)
    (hc : isLineBreak c = false) :
    splitlines (c :: rest) =
      (match splitlines rest with
       | [] => [[c]]
       | m :: ms => (c :: m) :: ms) := by
  have hcr : c ≠ Char.ofNat 13 := by
    intro h
    rw [h] at hc
    simp [isLineBreak] at hc
  rw [splitlines.eq_def]
  split
  · rename_i heq
    simp at heq
  · rename_i rest2 heq
    rw [List.cons.injEq] at heq
    exact absurd heq.1 hcr
  · rename_i c2 rest2 hno heq
    rw [List.cons.injEq] at heq
    obtain ⟨hceq, hreq⟩ := heq
    subst hceq
    subst hreq
    rw [if_neg (by simp [hc])]

theorem splitlines_append_break (l rest : Str)
    (hl : ∀ c ∈ l, isLineBreak c = false) :
    splitlines (l ++ '\n' :: rest) = l :: splitlines rest := by
  induction l with
  | nil => rfl
  | cons c l2 ih =>
    have hc : isLineBreak c = false := hl c (by simp)
    have hrec := ih (fun d hd => hl d (by simp [hd]))
    rw [List.cons_append, splitlines_cons_not_break c _ hc, hrec]

theorem splitlines_joinNL (lines : List Str) (h1 : lines ≠ [])
    (h2 : ∀ l ∈ lines, ∀ c ∈ l, isLineBreak c = false) :
    splitlines (joinNL lines ++ ['\n']) = lines := by
  induction lines with
  | nil => exact absurd rfl h1
  | cons l t ih =>
    cases t with
    | nil =>
      show splitlines (l ++ '\n' :: []) = [l]
      rw [splitlines_append_break l [] (fun c hc => h2 l (by simp) c hc)]
      rfl
    | cons l2 t2 =>
      have hstep : joinNL (l :: l2 :: t2) ++ ['\n'] =
          l ++ '\n' :: (joinNL (l2 :: t2) ++ ['\n']) := by
        simp [joinNL]
      rw [hstep, splitlines_append_break l _ (fun c hc => h2 l (by simp) c hc),
        ih (by simp) (fun m hm c hc => h2 m (by simp [hm]) c hc)]

/-- Claim C6: for a non-empty buffer with no embedded line terminators whose
final line is non-empty — or which is the single empty line — writing the
buffer with `save_file` and re-reading it with `load_file` yields the same
ordered line sequence. -/
theorem save_load_roundtrip (lines : List Str) (h1 : lines ≠ [])
    (h2 : ∀ l ∈ lines, ∀ c ∈ l, isLineBreak c = false)
    (h3 : lines.getLast h1 ≠ [] ∨ lines = [[]]) :
    loadLines (saveContent lines) = lines := by
  rcases h3 with h3 | h3
  · have hgl : lines.getLast? = some (lines.getLast h1) := List.getLast?_eq_getLast _ h1
    have hsc : saveContent lines = joinNL lines ++ ['\n'] := by
      simp only [saveContent, hgl]
      rw [if_neg h3]
    rw [hsc]
    simp only [loadLines]
    rw [splitlines_joinNL lines h1 h2, if_neg h1]
  · subst h3
    rfl

/-- Witness for C6: round trip of the concrete buffer `["ab", "c"]`. -/
theorem save_load_roundtrip_witness :
    loadLines (saveContent ["ab".toList, "c".toList]) = ["ab".toList, "c".toList] :=
  save_load_roundtrip ["ab".toList, "c".toList] (by decide) (by decide) (by decide)

theorem joinNL_eq_intercalate (ls : List Str) :
    joinNL ls = List.intercalate ['\n'] ls := by
  induction ls with
  | nil => rfl
  | cons l t ih =>
    cases t with
    | nil => simp [joinNL, List.intercalate]
    | cons l2 t2 =>
      have hi : List.intercalate ['\n'] (l :: l2 :: t2) =
          l ++ '\n' :: List.intercalate ['\n'] (l2 :: t2) := by
        simp [List.intercalate, List.intersperse]
      rw [hi, ← ih]
      rfl

/-- Claim C8: the bytes `save_file` writes are exactly the lines joined by
one newline between each pair, followed by one trailing newline exactly
when the final line is non-empty. -/
theorem save_format (lines : List Str) (h : lines ≠ []) :
    saveContent lines = List.intercalate ['\n'] lines ++
      (if lines.getLast h = [] then [] else ['\n']) := by
  have hgl : lines.getLast? = some (lines.getLast h) := List.getLast?_eq_getLast _ h
  simp only [saveContent, hgl, joinNL_eq_intercalate]

/-- Witness for C8: the save format evaluated on `["a", ""]` and `["a"]`. -/
theorem save_format_witness :
    saveContent ["a".toList, []] = List.intercalate ['\n'] ["a".toList, []] ++
      (if (["a".toList, []] : List Str).getLast (by decide) = [] then [] else ['\n']) :=
  save_format ["a".toList, []] (by decide)

/-! ### Claims C3 and C9: the search -/

theorem strFind_nil {q : Str} (hq : q ≠ []) : strFind [] q = none := by
  simp [strFind, strFindAux, hq]

/-- When every occurrence of the query on the origin row starts at or
before the cursor column and no other row contains the query, the search
only sets the not-found message. -/
theorem search_not_found_eq (height width : Nat) (s : EditorState) (q : Str)
    (hq : q ≠ [])
    (hOrigin : ∀ i, matchesAt (s.lines.getD s.cursor_y []) q i → i ≤ s.cursor_x)
    (hRows : ∀ z, z < s.lines.length → z ≠ s.cursor_y →
      strFind (s.lines.getD z []) q = none) :
    search height width q s =
      { s with message := msgNotFound q, message_type := errorTy } := by
  have hfo : strFind ((s.lines.getD s.cursor_y []).drop (s.cursor_x + 1)) q = none := by
    rw [strFind_none_iff]
    intro d hd
    rw [matchesAt_drop] at hd
    have := hOrigin _ hd
    omega
  have hrow : ∀ z, z ≠ s.cursor_y → strFind (s.lines.getD z []) q = none := by
    intro z hz
    by_cases hzl : z < s.lines.length
    · exact hRows z hzl hz
    · rw [List.getD_eq_default _ _ (by omega)]
      exact strFind_nil hq
  have hff : findInRange s.lines q (s.cursor_y + 1) s.lines.length = none :=
    findInRange_none_of (fun z hz1 hz2 => hrow z (by omega))
  have hfw : findInRange s.lines q 0 s.cursor_y = none :=
    findInRange_none_of (fun z hz1 hz2 => hrow z (by omega))
  simp only [search, if_neg hq, hfo, hff, hfw]

/-- The buffer used by the search scenario: `["foo", "bar", "foo"]` with
the cursor at `(0, 0)`. -/
def fooState : EditorState :=
  ⟨none, ["foo".toList, "bar".toList, "foo".toList], 0, 0, 0, 0, false, [], infoTy⟩

/-- Claim C3: the search tries the origin row only at match positions at or
after `fromCol + 1`, then the rows below the origin row in order (leftmost
match, plain "found" message), then wraps over the rows strictly above the
origin row (wrapped message) without re-examining the origin row; a query
whose only occurrences on the origin row start at or before the cursor
column, appearing nowhere else, is reported not found; and on
`["foo","bar","foo"]` with cursor `(0,0)` searching `"foo"` hits row 2,
column 0, as a plain non-wrapped find. -/
theorem search_order_spec :
    (∀ height width (s : EditorState) q pos, q ≠ [] →
      strFind ((s.lines.getD s.cursor_y []).drop (s.cursor_x + 1)) q = some pos →
      matchesAt (s.lines.getD s.cursor_y []) q (s.cursor_x + 1 + pos) ∧
      (∀ j, s.cursor_x + 1 ≤ j → j < s.cursor_x + 1 + pos →
        ¬ matchesAt (s.lines.getD s.cursor_y []) q j) ∧
      search height width q s = adjust_scroll height width
        { s with cursor_x := s.cursor_x + 1 + pos,
                 message := msgFound q, message_type := successTy }) ∧
    (∀ height width (s : EditorState) q y p, q ≠ [] →
      strFind ((s.lines.getD s.cursor_y []).drop (s.cursor_x + 1)) q = none →
      findInRange s.lines q (s.cursor_y + 1) s.lines.length = some (y, p) →
      s.cursor_y < y ∧ y < s.lines.length ∧
      strFind (s.lines.getD y []) q = some p ∧
      matchesAt (s.lines.getD y []) q p ∧
      (∀ d, d < p → ¬ matchesAt (s.lines.getD y []) q d) ∧
      (∀ z, s.cursor_y < z → z < y → strFind (s.lines.getD z []) q = none) ∧
      search height width q s = adjust_scroll height width
        { s with cursor_y := y, cursor_x := p,
                 message := msgFound q, message_type := successTy }) ∧
    (∀ height width (s : EditorState) q y p, q ≠ [] →
      strFind ((s.lines.getD s.cursor_y []).drop (s.cursor_x + 1)) q = none →
      findInRange s.lines q (s.cursor_y + 1) s.lines.length = none →
      findInRange s.lines q 0 s.cursor_y = some (y, p) →
      y < s.cursor_y ∧
      search height width q s = adjust_scroll height width
        { s with cursor_y := y, cursor_x := p,
                 message := msgFoundWrapped q, message_type := successTy }) ∧
    (∀ height width (s : EditorState) q, q ≠ [] →
      (∀ i, matchesAt (s.lines.getD s.cursor_y []) q i → i ≤ s.cursor_x) →
      (∀ z, z < s.lines.length → z ≠ s.cursor_y →
        strFind (s.lines.getD z []) q = none) →
      search height width q s =
        { s with message := msgNotFound q, message_type := errorTy }) ∧
    (search 20 80 "foo".toList fooState =
      { fooState with cursor_y := 2, cursor_x := 0,
                      message := msgFound "foo".toList, message_type := successTy }) := by
  refine ⟨?_, ?_, ?_, ?_, ?_⟩
  · intro height width s q pos hq hfo
    refine ⟨?_, ?_, ?_⟩
    · have h := (strFind_some_spec hfo).1
      rw [matchesAt_drop] at h
      exact h
    · intro j hj1 hj2 hmj
      have hd : j - (s.cursor_x + 1) < pos := by omega
      refine (strFind_some_spec hfo).2 _ hd ?_
      rw [matchesAt_drop]
      have hje : s.cursor_x + 1 + (j - (s.cursor_x + 1)) = j := by omega
      rw [hje]
      exact hmj
    · simp only [search, if_neg hq, hfo]
  · intro height width s q y p hq hfo hff
    obtain ⟨hy1, hy2, hy3, hy4⟩ := findInRange_some_spec hff
    exact ⟨by omega, hy2, hy3, (strFind_some_spec hy3).1,
      fun d hd => (strFind_some_spec hy3).2 d hd,
      fun z hz1 hz2 => hy4 z (by omega) hz2,
      by simp only [search, if_neg hq, hfo, hff]⟩
  · intro height width s q y p hq hfo hff hfw
    obtain ⟨hy1, hy2, hy3, hy4⟩ := findInRange_some_spec hfw
    exact ⟨hy2, by simp only [search, if_neg hq, hfo, hff, hfw]⟩
  · intro height width s q hq hOrigin hRows
    exact search_not_found_eq height width s q hq hOrigin hRows
  · decide

/-- The one-line buffer `["xfoox"]` used as the C3 witness origin row. -/
def xfooxState : EditorState :=
  ⟨none, ["xfoox".toList], 0, 0, 0, 0, false, [], infoTy⟩

/-- Witness for C3: the origin-row clause applied to `["xfoox"]` at cursor
`(0, 0)`, where the leftmost match after column 0 starts at column 1. -/
theorem search_order_spec_witness :
    matchesAt (xfooxState.lines.getD xfooxState.cursor_y []) "foo".toList
      (xfooxState.cursor_x + 1 + 0) ∧
    (∀ j, xfooxState.cursor_x + 1 ≤ j → j < xfooxState.cursor_x + 1 + 0 →
      ¬ matchesAt (xfooxState.lines.getD xfooxState.cursor_y []) "foo".toList j) ∧
    search 20 80 "foo".toList xfooxState = adjust_scroll 20 80
      { xfooxState with
        cursor_x := xfooxState.cursor_x + 1 + 0,
        message := msgFound "foo".toList,
        message_type := successTy } :=
  search_order_spec.1 20 80 xfooxState "foo".toList 0 (by decide) (by decide)

/-- Claim C9: a search whose query occurs nowhere at or after the start
positions (origin row after the cursor column, all other rows) leaves the
line buffer, cursor, scroll offsets, modified flag and filename unchanged
and only sets the not-found error message. -/
theorem search_not_found_frame (height width : Nat) (s : EditorState) (q : Str)
    (hq : q ≠ [])
    (hOrigin : ∀ i, matchesAt (s.lines.getD s.cursor_y []) q i → i ≤ s.cursor_x)
    (hRows : ∀ z, z < s.lines.length → z ≠ s.cursor_y →
      strFind (s.lines.getD z []) q = none) :
    (search height width q s).lines = s.lines ∧
    (search height width q s).cursor_y = s.cursor_y ∧
    (search height width q s).cursor_x = s.cursor_x ∧
    (search height width q s).offset_y = s.offset_y ∧
    (search height width q s).offset_x = s.offset_x ∧
    (search height width q s).modified = s.modified ∧
    (search height width q s).filename = s.filename ∧
    (search height width q s).message = msgNotFound q ∧
    (search height width q s).message_type = errorTy := by
  rw [search_not_found_eq height width s q hq hOrigin hRows]
  exact ⟨rfl, rfl, rfl, rfl, rfl, rfl, rfl, rfl, rfl⟩

/-- The one-line buffer `["ab"]` used as the C9 witness. -/
def abState : EditorState :=
  ⟨none, ["ab".toList], 0, 0, 0, 0, false, [], infoTy⟩

/-- Witness for C9: the frame property applied to searching `"zz"` in
`["ab"]`. -/
theorem search_not_found_frame_witness :
    (search 5 5 "zz".toList abState).lines = abState.lines ∧
    (search 5 5 "zz".toList abState).cursor_y = abState.cursor_y ∧
    (search 5 5 "zz".toList abState).cursor_x = abState.cursor_x ∧
    (search 5 5 "zz".toList abState).offset_y = abState.offset_y ∧
    (search 5 5 "zz".toList abState).offset_x = abState.offset_x ∧
    (search 5 5 "zz".toList abState).modified = abState.modified ∧
    (search 5 5 "zz".toList abState).filename = abState.filename ∧
    (search 5 5 "zz".toList abState).message = msgNotFound "zz".toList ∧
    (search 5 5 "zz".toList abState).message_type = errorTy :=
  search_not_found_frame 5 5 abState "zz".toList (by decide)
    (fun i hi => absurd hi (strFind_none_iff.mp (by decide) i))
    (fun z hz1 hz2 => by
      have hl : abState.lines.length = 1 := by decide
      have hc : abState.cursor_y = 0 := by decide
      rw [hl] at hz1
      rw [hc] at hz2
      exact absurd (by omega : z = 0) hz2)

/-! ### Claims C5 and C10: exit confirmation and saving -/

theorem save_file_eval (writeRes : Option Str) (f : Str) (hf : f.isEmpty = false)
    (s : EditorState) :
    save_file writeRes (some f) s =
      (match writeRes with
       | none =>
         (true, { s with
           filename := some f
           modified := false
           message := msgWrote s.lines.length f
           message_type := successTy })
       | some e =>
         (false, { s with
           filename := some f
           message := msgErrWriting f e
           message_type := errorTy })) := by
  cases writeRes <;> simp [save_file, truthyOpt, hf]

/-- Claim C10: `save_file` called without a filename argument while the
buffer has no associated filename returns failure and leaves the state —
message, modified flag, line buffer, cursor — entirely unchanged (and no
write is attempted, as only the success branch touches the file). -/
theorem save_file_no_filename (writeRes : Option Str) (s : EditorState)
    (h : s.filename = none) :
    save_file writeRes none s = (false, s) := by
  simp [save_file, truthyOpt, h]

/-- Witness for C10: saving the initial unnamed buffer. -/
theorem save_file_no_filename_witness :
    save_file none none (initState StartArg.noFile) = (false, initState StartArg.noFile) :=
  save_file_no_filename none (initState StartArg.noFile) (by decide)

/-- Claim C5: the exit confirmation terminates the editor exactly when the
buffer is unmodified, or the user answers no, or the user answers yes with
a truthy filename and the write succeeds; whenever it does not terminate
(yes with failed save or no filename, or cancel) the line buffer and
cursor are unchanged, and cancel returns the state untouched. -/
theorem confirm_exit_spec (writeRes : Option Str) (ans : ExitAnswer) (input : Str)
    (s : EditorState) :
    ((confirm_exit writeRes ans input s).1 = true ↔
      (s.modified = false ∨ (s.modified = true ∧ ans = ExitAnswer.no) ∨
        (s.modified = true ∧ ans = ExitAnswer.yes ∧
          truthyOpt (prompt_save_filename s input) = true ∧ writeRes = none))) ∧
    ((confirm_exit writeRes ans input s).2.lines = s.lines ∧
      (confirm_exit writeRes ans input s).2.cursor_y = s.cursor_y ∧
      (confirm_exit writeRes ans input s).2.cursor_x = s.cursor_x) ∧
    (s.modified = true → ans = ExitAnswer.cancel →
      confirm_exit writeRes ans input s = (false, s)) := by
  refine ⟨?_, confirm_exit_frame writeRes ans input s, ?_⟩
  · by_cases hm : s.modified = false
    · simp [confirm_exit, hm]
    · have hmt : s.modified = true := by
        cases hb : s.modified
        · exact absurd hb hm
        · rfl
      cases ans with
      | yes =>
        by_cases htr : truthyOpt (prompt_save_filename s input) = true
        · obtain ⟨f, hf, hfe⟩ : ∃ f, prompt_save_filename s input = some f ∧
              f.isEmpty = false := by
            cases hp : prompt_save_filename s input with
            | none => rw [hp] at htr; simp [truthyOpt] at htr
            | some f =>
              rw [hp] at htr
              simp only [truthyOpt, Bool.not_eq_true] at htr
              exact ⟨f, rfl, by simpa using htr⟩
          simp only [confirm_exit, hm, if_false, hf, htr, if_true]
          rw [save_file_eval writeRes f hfe s]
          cases writeRes with
          | none => simp [hmt, htr, truthyOpt, hfe]
          | some e => simp [hmt, htr, truthyOpt, hfe]
        · simp only [confirm_exit, hm, if_false, htr]
          simp [hmt, htr]
      | no => simp [confirm_exit, hm, hmt]
      | cancel => simp [confirm_exit, hm, hmt]
  · intro hmt hans
    subst hans
    simp [confirm_exit, hmt]

/-- The modified one-line buffer used as the C5 witness. -/
def modState : EditorState :=
  ⟨none, ["a".toList], 0, 1, 0, 0, true, [], infoTy⟩

/-- Witness for C5: cancelling the exit confirmation on a modified buffer
keeps the editor alive with the state untouched, and answering yes with a
filename and a successful write terminates. -/
theorem confirm_exit_spec_witness :
    confirm_exit none ExitAnswer.cancel [] modState = (false, modState) ∧
    (confirm_exit none ExitAnswer.yes "f".toList modState).1 = true :=
  ⟨(confirm_exit_spec none ExitAnswer.cancel [] modState).2.2 (by decide) rfl,
   ((confirm_exit_spec none ExitAnswer.yes "f".toList modState).1).mpr
     (Or.inr (Or.inr ⟨by decide, rfl, by decide, rfl⟩))⟩

/-! ### Claim C4: the status-message clearing policy -/

theorem move_cursor_message (height width : Nat) (dy dx : Int) (s : EditorState) :
    (move_cursor height width dy dx s).message = [] := by
  simp [move_cursor]

theorem insert_char_message (height width : Nat) (ch : Str) (s : EditorState) :
    (insert_char height width ch s).message = [] := by
  simp [insert_char]

theorem insert_newline_message (height width : Nat) (s : EditorState) :
    (insert_newline height width s).message = [] := by
  simp [insert_newline]

theorem backspace_message (height width : Nat) (s : EditorState) :
    (backspace height width s).message = [] := by
  simp only [backspace]
  split
  · simp
  · split
    · simp
    · simp

theorem delete_char_message (s : EditorState) :
    (delete_char s).message = [] := by
  simp only [delete_char]
  split
  · rfl
  · split
    · rfl
    · rfl

/-- The one-line buffer with a stale non-empty status message used for the
C4 counterexample and witness. -/
def c4State : EditorState :=
  ⟨none, ["ab".toList], 0, 1, 0, 0, false, "abc".toList, infoTy⟩

/-- Claim C4 counterexample: with the prior non-empty message `"abc"`, the
LineStart command (Ctrl+A) moves the cursor to column 0 but leaves the
stale message in place instead of clearing it. -/
theorem home_does_not_clear_message :
    (dispatch 20 80 Key.ctrlA c4State []).1.cursor_x = 0 ∧
    (dispatch 20 80 Key.ctrlA c4State []).1.message = "abc".toList ∧
    ("abc".toList : Str) ≠ [] := by
  decide

/-- Claim C4 (amended): the arrow and page motions, Enter, Backspace,
Delete, Tab and printable insertion clear the previous status message
(Left/Right clear it exactly when they move within the line); CutLine and
PasteLine (with a non-empty clipboard) overwrite it with their own
message; but LineStart/LineEnd (Ctrl+A, Ctrl+E, Home, End) and the
line-wrap cases of Left and Right leave the previous message unchanged. -/
theorem message_clearing_policy (height width : Nat) (s : EditorState) (cb : Str) :
    ((dispatch height width Key.up s cb).1.message = [] ∧
     (dispatch height width Key.down s cb).1.message = [] ∧
     (dispatch height width Key.pageUp s cb).1.message = [] ∧
     (dispatch height width Key.pageDown s cb).1.message = [] ∧
     (dispatch height width Key.enter s cb).1.message = [] ∧
     (dispatch height width Key.backspaceKey s cb).1.message = [] ∧
     (dispatch height width Key.deleteKey s cb).1.message = [] ∧
     (dispatch height width Key.tab s cb).1.message = []) ∧
    (∀ c : Char, 32 ≤ c.toNat → c.toNat ≤ 126 →
      (dispatch height width (Key.printable c) s cb).1.message = []) ∧
    (s.cursor_x > 0 → (dispatch height width Key.left s cb).1.message = []) ∧
    (s.cursor_x < (s.lines.getD s.cursor_y []).length →
      (dispatch height width Key.right s cb).1.message = []) ∧
    (¬ s.lines.isEmpty → (dispatch height width Key.ctrlK s cb).1.message = msgCutLine) ∧
    (¬ cb.isEmpty → (dispatch height width Key.ctrlU s cb).1.message = msgPastedLine) ∧
    ((dispatch height width Key.ctrlA s cb).1.message = s.message ∧
     (dispatch height width Key.ctrlE s cb).1.message = s.message ∧
     (dispatch height width Key.home s cb).1.message = s.message ∧
     (dispatch height width Key.endKey s cb).1.message = s.message) ∧
    (s.cursor_x = 0 → s.cursor_y > 0 →
      (dispatch height width Key.left s cb).1.message = s.message) ∧
    (¬ s.cursor_x < (s.lines.getD s.cursor_y []).length →
      s.cursor_y < s.lines.length - 1 →
      (dispatch height width Key.right s cb).1.message = s.message) := by
  refine ⟨⟨?_, ?_, ?_, ?_, ?_, ?_, ?_, ?_⟩, ?_, ?_, ?_, ?_, ?_, ⟨?_, ?_, ?_, ?_⟩, ?_, ?_⟩
  · exact move_cursor_message height width (-1) 0 s
  · exact move_cursor_message height width 1 0 s
  · exact move_cursor_message height width (-(height : Int)) 0 s
  · exact move_cursor_message height width (height : Int) 0 s
  · exact insert_newline_message height width s
  · exact backspace_message height width s
  · exact delete_char_message s
  · exact insert_char_message height width _ s
  · intro c h32 h126
    simp only [dispatch]
    rw [if_pos ⟨h32, h126⟩]
    exact insert_char_message height width [c] s
  · intro hx
    simp only [dispatch]
    rw [if_pos hx]
    exact move_cursor_message height width 0 (-1) s
  · intro hx
    simp only [dispatch]
    rw [if_pos hx]
    exact move_cursor_message height width 0 1 s
  · intro hne
    simp only [dispatch]
    rw [if_neg hne]
  · intro hcb
    simp only [dispatch]
    rw [if_neg hcb]
  · rfl
  · rfl
  · rfl
  · rfl
  · intro h0 hy
    simp only [dispatch]
    rw [if_neg (by omega), if_pos hy]
    rfl
  · intro hx hy
    simp only [dispatch]
    rw [if_neg hx, if_pos hy]
    rfl

/-- Witness for C4: the amended policy applied to the concrete state with
stale message `"abc"`: arrow motion clears it, in-line Left clears it,
CutLine overwrites it with its own message, and LineStart keeps it. -/
theorem message_clearing_policy_witness :
    (dispatch 20 80 Key.up c4State []).1.message = [] ∧
    (dispatch 20 80 Key.left c4State []).1.message = [] ∧
    (dispatch 20 80 Key.ctrlK c4State []).1.message = msgCutLine ∧
    (dispatch 20 80 Key.ctrlA c4State []).1.message = c4State.message := by
  obtain ⟨ha, hb, hc, hd, he, hf, hg, hh⟩ := message_clearing_policy 20 80 c4State []
  exact ⟨ha.1, hc (by decide), he (by decide), hg.1⟩

end Atomo
